import Mathlib

/-
Verification of the arkiv-op-geth storage / CDC core.

The definitions below are a shallow embedding of the Go sources:
machine bytes and words become lists of `Nat` (with `% 2 ^ 64` where uint64
overflow matters), fixed-size Go arrays become length hypotheses, fallible
Go functions return `Except`, and the sequential state mutations of the
entity store are made explicit by threading a `ChainState` together with a
trace of primitive effects, so that the order of mutations is observable.
-/

/-! ## Bytes and words -/

/-- The all-zero 32-byte word, `common.Hash{}`: an absent slot reads as this. -/
def zeroWord : List Nat := List.replicate 32 0

/-- Big-endian byte encoding of `v` into `n` bytes
(`binary.BigEndian.PutUint64` writes `beBytes 8`). -/
def beBytes : Nat → Nat → List Nat
  | 0, _ => []
  | n + 1, v => beBytes n (v / 256) ++ [v % 256]

/-- Big-endian byte decoding (`binary.BigEndian.Uint64` on 8 bytes). -/
def beDecode (bs : List Nat) : Nat :=
  bs.foldl (fun acc b => acc * 256 + b) 0

theorem beDecode_append_singleton (xs : List Nat) (b : Nat) :
    beDecode (xs ++ [b]) = beDecode xs * 256 + b := by
  simp [beDecode, List.foldl_append]

theorem beDecode_beBytes (n v : Nat) :
    beDecode (beBytes n v) = v % 256 ^ n := by
  induction n generalizing v with
  | zero => simp [beBytes, beDecode, Nat.mod_one]
  | succ n ih =>
    rw [beBytes, beDecode_append_singleton, ih]
    rw [pow_succ, Nat.mul_comm (256 ^ n) 256, Nat.mod_mul]
    ring

theorem beBytes_length (n v : Nat) : (beBytes n v).length = n := by
  induction n generalizing v with
  | zero => rfl
  | succ n ih => simp [beBytes, ih]

/-! ## EntityMetaData (`arkiv/storageutil/entity`) -/

/-- `EntityMetaData`: owner address (20 bytes) and expiry height (uint64). -/
structure EntityMetaData where
  owner : List Nat
  expiresAtBlock : Nat
deriving DecidableEq, Repr

/-- `EntityMetaData.Marshal`: owner in bytes 0..19, bytes 20..23 zero,
big-endian uint64 expiry in bytes 24..31.  The Go `Owner` field is a fixed
`[20]byte`; theorems carry `owner.length = 20` instead. -/
def EntityMetaData.marshal (emd : EntityMetaData) : List Nat :=
  emd.owner ++ List.replicate 4 0 ++ beBytes 8 emd.expiresAtBlock

/-- `EntityMetaData.Unmarshal`: owner from bytes 0..19, expiry decoded
big-endian from bytes 24..31. -/
def EntityMetaData.unmarshal (w : List Nat) : EntityMetaData :=
  { owner := w.take 20, expiresAtBlock := beDecode (w.drop 24) }

theorem marshal_length (emd : EntityMetaData) (h : emd.owner.length = 20) :
    emd.marshal.length = 32 := by
  simp [EntityMetaData.marshal, h, beBytes_length]

/-- Claim C10: `EntityMetaData` packs into one 32-byte word and the packing
round-trips: for every metadata record with a 20-byte owner and a `uint64`
expiry, unmarshalling the marshalled word recovers the record. -/
theorem unmarshal_marshal (emd : EntityMetaData)
    (howner : emd.owner.length = 20) (hexp : emd.expiresAtBlock < 2 ^ 64) :
    EntityMetaData.unmarshal emd.marshal = emd ∧ emd.marshal.length = 32 := by
  constructor
  · have htake : emd.marshal.take 20 = emd.owner := by
      rw [EntityMetaData.marshal, List.append_assoc, ← howner, List.take_left]
    have hdrop : emd.marshal.drop 24 = beBytes 8 emd.expiresAtBlock := by
      rw [EntityMetaData.marshal]
      have hlen : (emd.owner ++ List.replicate 4 0).length = 24 := by
        simp [howner]
      rw [← hlen, List.drop_left]
    have hdec : beDecode (beBytes 8 emd.expiresAtBlock) = emd.expiresAtBlock := by
      rw [beDecode_beBytes]
      exact Nat.mod_eq_of_lt (by norm_num at hexp ⊢; omega)
    cases emd with
    | mk o e => simp_all [EntityMetaData.unmarshal]
  · exact marshal_length emd howner

/-- Witness for C10 at a concrete record. -/
theorem unmarshal_marshal_witness :
    (List.replicate 20 7).length = 20 ∧ 123456 < 2 ^ 64 ∧
      EntityMetaData.unmarshal (EntityMetaData.marshal ⟨List.replicate 20 7, 123456⟩)
        = ⟨List.replicate 20 7, 123456⟩ :=
  ⟨by decide, by norm_num,
    (unmarshal_marshal ⟨List.replicate 20 7, 123456⟩ (by decide) (by norm_num)).1⟩

/-! ## Chain state and the entity store

The word-level `StateAccess` stores the metadata word of each entity key at a
salted slot; the salting is injective bookkeeping, so the state is modelled
directly as a map from entity key to its metadata word (an absent slot reads
all-zero).  The expiration index (`entityexpiration` package, not among the
sources) is modelled from the spec as the per-height list of scheduled keys.
Every primitive mutation also reports itself as an `Effect`, so the order of
mutations inside a compound operation is observable. -/

structure ChainState where
  meta : List Nat → List Nat
  buckets : Nat → List (List Nat)

/-- A primitive mutation of the storage state. -/
inductive Effect
  | removeFromBucket (height : Nat) (key : List Nat)
  | addToBucket (height : Nat) (key : List Nat)
  | setMetaWord (key : List Nat) (word : List Nat)
deriving DecidableEq, Repr

def applyEffect (st : ChainState) : Effect → ChainState
  | .removeFromBucket height key =>
    { st with buckets := fun h =>
        if h = height then (st.buckets height).filter (fun k => k != key)
        else st.buckets h }
  | .addToBucket height key =>
    { st with buckets := fun h =>
        if h = height then key :: st.buckets height else st.buckets h }
  | .setMetaWord key word =>
    { st with meta := fun k => if k = key then word else st.meta k }

/-- `entity.GetEntityMetaData` (the copy shipped together with `entity.Delete`):
a metadata slot reading as the all-zero word means the entity does not exist
and is reported as an error; otherwise the word is unmarshalled. -/
def GetEntityMetaData (st : ChainState) (key : List Nat) :
    Except String EntityMetaData :=
  let value := st.meta key
  if value = zeroWord then .error "failed to retrieve entity metadata for key"
  else .ok (EntityMetaData.unmarshal value)

/-- The second copy of `GetEntityMetaData` present in the sources
(`get_entity_metadata.go`), which unmarshals the slot without the zero check;
it is shadowed by the checking copy used by `Delete`/`ExtendBTL` and kept here
only for the record. -/
def GetEntityMetaDataUnchecked (st : ChainState) (key : List Nat) :
    Except String EntityMetaData :=
  .ok (EntityMetaData.unmarshal (st.meta key))

/-- `entity.StoreEntityMetaData`: write the marshalled word at the key's slot. -/
def StoreEntityMetaData (st : ChainState) (key : List Nat)
    (emd : EntityMetaData) : ChainState × List Effect :=
  (applyEffect st (.setMetaWord key emd.marshal), [.setMetaWord key emd.marshal])

/-- `entity.DeleteEntityMetadata`: clear the key's metadata slot to zero. -/
def DeleteEntityMetadata (st : ChainState) (key : List Nat) :
    ChainState × List Effect :=
  (applyEffect st (.setMetaWord key zeroWord), [.setMetaWord key zeroWord])

/-- Modelled from the spec: `entityexpiration.RemoveFromEntitiesToExpire`
(the ExpirationIndex `Remove` operation; the `entityexpiration` package is not
among the sources).  Removes `key` from the bucket of `height`. -/
def RemoveFromEntitiesToExpire (st : ChainState) (height : Nat)
    (key : List Nat) : ChainState × List Effect :=
  (applyEffect st (.removeFromBucket height key), [.removeFromBucket height key])

/-- Modelled from the spec: `entityexpiration.AddToEntitiesToExpireAtBlock`
(the ExpirationIndex `Add` operation, an O(1) prepend; the package is not
among the sources). -/
def AddToEntitiesToExpireAtBlock (st : ChainState) (height : Nat)
    (key : List Nat) : ChainState × List Effect :=
  (applyEffect st (.addToBucket height key), [.addToBucket height key])

/-- `entity.Delete`: read the metadata (error if absent), remove the key from
the bucket of the recorded expiry height, then clear the metadata word, and
return the recorded owner. -/
def EntityDelete (st : ChainState) (key : List Nat) :
    ChainState × List Effect × Except String (List Nat) :=
  match GetEntityMetaData st key with
  | .error e => (st, [], .error e)
  | .ok md =>
    let r := RemoveFromEntitiesToExpire st md.expiresAtBlock key
    let d := DeleteEntityMetadata r.1 key
    (d.1, r.2 ++ d.2, .ok md.owner)

/-- `entity.ExtendBTL`: read the metadata (error if absent), remove the key
from the bucket of the current expiry, bump the expiry by `numberOfBlocks`
(uint64 arithmetic), add the key to the new bucket, store the updated
metadata, and return the OLD expiry together with the owner. -/
def ExtendBTL (st : ChainState) (key : List Nat) (numberOfBlocks : Nat) :
    ChainState × List Effect × Except String (Nat × List Nat) :=
  match GetEntityMetaData st key with
  | .error e => (st, [], .error e)
  | .ok md =>
    let r := RemoveFromEntitiesToExpire st md.expiresAtBlock key
    let oldExpiresAtBlock := md.expiresAtBlock
    let md2 : EntityMetaData :=
      { md with expiresAtBlock := (md.expiresAtBlock + numberOfBlocks) % 2 ^ 64 }
    let a := AddToEntitiesToExpireAtBlock r.1 md2.expiresAtBlock key
    let s := StoreEntityMetaData a.1 key md2
    (s.1, r.2 ++ a.2 ++ s.2, .ok (oldExpiresAtBlock, md2.owner))

/-! ## Claims about the entity store -/

theorem unmarshal_zeroWord : EntityMetaData.unmarshal zeroWord = ⟨List.replicate 20 0, 0⟩ := by
  decide

theorem marshal_ne_zeroWord (emd : EntityMetaData)
    (howner : emd.owner.length = 20) (hexp : emd.expiresAtBlock < 2 ^ 64)
    (hne : emd ≠ ⟨List.replicate 20 0, 0⟩) : emd.marshal ≠ zeroWord := by
  intro h
  have := (unmarshal_marshal emd howner hexp).1
  rw [h, unmarshal_zeroWord] at this
  exact hne this.symm

/-- Claim C4: a key whose metadata slot reads as the all-zero word is reported
as not found by `GetEntityMetaData`, while a key whose record was stored (any
record other than the one marshalling to the all-zero word) is read back
without error. -/
theorem getEntityMetaData_spec (st : ChainState) (key : List Nat) :
    (st.meta key = zeroWord → ∃ e, GetEntityMetaData st key = .error e) ∧
    (∀ emd : EntityMetaData, emd.owner.length = 20 →
      emd.expiresAtBlock < 2 ^ 64 → emd ≠ ⟨List.replicate 20 0, 0⟩ →
      GetEntityMetaData (StoreEntityMetaData st key emd).1 key = .ok emd) := by
  constructor
  · intro h
    exact ⟨"failed to retrieve entity metadata for key",
      by simp [GetEntityMetaData, h]⟩
  · intro emd howner hexp hne
    have hmeta : (StoreEntityMetaData st key emd).1.meta key = emd.marshal := by
      simp [StoreEntityMetaData, applyEffect]
    rw [GetEntityMetaData]
    simp only [hmeta]
    rw [if_neg (marshal_ne_zeroWord emd howner hexp hne),
      (unmarshal_marshal emd howner hexp).1]

def sampleKey : List Nat := List.replicate 32 1

def sampleOwner : List Nat := List.replicate 20 7

def sampleMeta : EntityMetaData := ⟨sampleOwner, 5⟩

/-- A state in which no entity exists. -/
def sampleAbsent : ChainState := ⟨fun _ => zeroWord, fun _ => []⟩

/-- A state holding one live entity, `sampleKey`, expiring at height 5. -/
def sampleLive : ChainState :=
  ⟨fun k => if k = sampleKey then sampleMeta.marshal else zeroWord,
    fun h => if h = 5 then [sampleKey] else []⟩

/-- Witness for C4: the absent key is reported not found, the stored record is
read back. -/
theorem getEntityMetaData_spec_witness :
    (sampleAbsent.meta sampleKey = zeroWord ∧
      ∃ e, GetEntityMetaData sampleAbsent sampleKey = .error e) ∧
    (GetEntityMetaData (StoreEntityMetaData sampleAbsent sampleKey sampleMeta).1
        sampleKey = .ok sampleMeta) :=
  ⟨⟨by decide, (getEntityMetaData_spec sampleAbsent sampleKey).1 (by decide)⟩,
    (getEntityMetaData_spec sampleAbsent sampleKey).2 sampleMeta (by decide)
      (by norm_num [sampleMeta]) (by decide)⟩

/-- Claim C5: `Delete` on an absent key fails with not-found and leaves the
state unchanged; on a live key it returns the recorded owner, and its effect
trace is exactly the removal of the key from the bucket of the recorded expiry
height followed (strictly later) by the clearing of the metadata word; the
final state is the trace applied in that order, with the metadata cleared and
the key gone from its bucket. -/
theorem entityDelete_spec (st : ChainState) (key : List Nat) :
    (st.meta key = zeroWord →
      EntityDelete st key
        = (st, [], .error "failed to retrieve entity metadata for key")) ∧
    (st.meta key ≠ zeroWord →
      (EntityDelete st key).2.2
          = .ok (EntityMetaData.unmarshal (st.meta key)).owner ∧
      (EntityDelete st key).2.1
          = [.removeFromBucket
                (EntityMetaData.unmarshal (st.meta key)).expiresAtBlock key,
              .setMetaWord key zeroWord] ∧
      (EntityDelete st key).1 = ((EntityDelete st key).2.1).foldl applyEffect st ∧
      ((EntityDelete st key).1).meta key = zeroWord ∧
      key ∉ ((EntityDelete st key).1).buckets
        (EntityMetaData.unmarshal (st.meta key)).expiresAtBlock) := by
  constructor
  · intro h
    simp [EntityDelete, GetEntityMetaData, h]
  · intro h
    have hget : GetEntityMetaData st key
        = .ok (EntityMetaData.unmarshal (st.meta key)) := by
      simp [GetEntityMetaData, h]
    refine ⟨?_, ?_, ?_, ?_, ?_⟩
    · simp [EntityDelete, hget, RemoveFromEntitiesToExpire, DeleteEntityMetadata]
    · simp [EntityDelete, hget, RemoveFromEntitiesToExpire, DeleteEntityMetadata]
    · simp [EntityDelete, hget, RemoveFromEntitiesToExpire, DeleteEntityMetadata,
        List.foldl]
    · simp [EntityDelete, hget, RemoveFromEntitiesToExpire, DeleteEntityMetadata,
        applyEffect]
    · simp [EntityDelete, hget, RemoveFromEntitiesToExpire, DeleteEntityMetadata,
        applyEffect, List.mem_filter]

/-- Witness for C5 at a concrete absent key and a concrete live key. -/
theorem entityDelete_spec_witness :
    (sampleAbsent.meta sampleKey = zeroWord ∧
      EntityDelete sampleAbsent sampleKey
        = (sampleAbsent, [], .error "failed to retrieve entity metadata for key")) ∧
    (sampleLive.meta sampleKey ≠ zeroWord ∧
      (EntityDelete sampleLive sampleKey).2.2
          = .ok (EntityMetaData.unmarshal (sampleLive.meta sampleKey)).owner ∧
      (EntityDelete sampleLive sampleKey).2.1
          = [.removeFromBucket
                (EntityMetaData.unmarshal (sampleLive.meta sampleKey)).expiresAtBlock
                sampleKey,
              .setMetaWord sampleKey zeroWord]) :=
  ⟨⟨by decide, (entityDelete_spec sampleAbsent sampleKey).1 (by decide)⟩,
    ⟨by decide, ((entityDelete_spec sampleLive sampleKey).2 (by decide)).1,
      ((entityDelete_spec sampleLive sampleKey).2 (by decide)).2.1⟩⟩

/-- Counterexample to claim C6: `ExtendBTL` on the entity expiring at 5 with
`n = 3` reports the old expiry 5 to its caller, not the new expiry 8 the claim
announces. -/
theorem extendBTL_counterexample :
    (ExtendBTL sampleLive sampleKey 3).2.2 = .ok (5, sampleOwner) ∧
      (5 : Nat) ≠ 8 := by
  exact ⟨rfl, by decide⟩

/-- Claim C6 (amended): `ExtendBTL(key, n)` on an entity expiring at `h` with
owner `o` removes the key from bucket `h`, adds it to bucket `h + n`, stores
metadata with expiry `h + n` and the owner unchanged, but reports the OLD
expiry `h` (together with the preserved owner) to its caller. -/
theorem extendBTL_spec (st : ChainState) (key : List Nat) (n : Nat)
    (h : st.meta key ≠ zeroWord)
    (hlt : (EntityMetaData.unmarshal (st.meta key)).expiresAtBlock + n < 2 ^ 64) :
    (ExtendBTL st key n).2.2
        = .ok ((EntityMetaData.unmarshal (st.meta key)).expiresAtBlock,
            (EntityMetaData.unmarshal (st.meta key)).owner) ∧
    (ExtendBTL st key n).2.1
        = [.removeFromBucket
              (EntityMetaData.unmarshal (st.meta key)).expiresAtBlock key,
            .addToBucket
              ((EntityMetaData.unmarshal (st.meta key)).expiresAtBlock + n) key,
            .setMetaWord key
              (EntityMetaData.marshal
                ⟨(EntityMetaData.unmarshal (st.meta key)).owner,
                  (EntityMetaData.unmarshal (st.meta key)).expiresAtBlock + n⟩)] ∧
    ((ExtendBTL st key n).1).meta key
        = EntityMetaData.marshal
            ⟨(EntityMetaData.unmarshal (st.meta key)).owner,
              (EntityMetaData.unmarshal (st.meta key)).expiresAtBlock + n⟩ ∧
    key ∈ ((ExtendBTL st key n).1).buckets
        ((EntityMetaData.unmarshal (st.meta key)).expiresAtBlock + n) ∧
    (n ≠ 0 → key ∉ ((ExtendBTL st key n).1).buckets
        (EntityMetaData.unmarshal (st.meta key)).expiresAtBlock) ∧
    (ExtendBTL st key n).1 = ((ExtendBTL st key n).2.1).foldl applyEffect st := by
  have hget : GetEntityMetaData st key
      = .ok (EntityMetaData.unmarshal (st.meta key)) := by
    simp [GetEntityMetaData, h]
  have hmod : ((EntityMetaData.unmarshal (st.meta key)).expiresAtBlock + n)
        % 18446744073709551616
      = (EntityMetaData.unmarshal (st.meta key)).expiresAtBlock + n := by
    apply Nat.mod_eq_of_lt
    norm_num at hlt
    exact hlt
  refine ⟨?_, ?_, ?_, ?_, ?_, ?_⟩
  · simp [ExtendBTL, hget, hmod, RemoveFromEntitiesToExpire,
      AddToEntitiesToExpireAtBlock, StoreEntityMetaData]
  · simp [ExtendBTL, hget, hmod, RemoveFromEntitiesToExpire,
      AddToEntitiesToExpireAtBlock, StoreEntityMetaData]
  · simp [ExtendBTL, hget, hmod, RemoveFromEntitiesToExpire,
      AddToEntitiesToExpireAtBlock, StoreEntityMetaData, applyEffect,
      EntityMetaData.marshal]
  · simp [ExtendBTL, hget, hmod, RemoveFromEntitiesToExpire,
      AddToEntitiesToExpireAtBlock, StoreEntityMetaData, applyEffect]
  · intro hn
    have hne : (EntityMetaData.unmarshal (st.meta key)).expiresAtBlock
        ≠ (EntityMetaData.unmarshal (st.meta key)).expiresAtBlock + n := by
      omega
    simp [ExtendBTL, hget, hmod, RemoveFromEntitiesToExpire,
      AddToEntitiesToExpireAtBlock, StoreEntityMetaData, applyEffect, hne,
      List.mem_filter]
  · simp [ExtendBTL, hget, hmod, RemoveFromEntitiesToExpire,
      AddToEntitiesToExpireAtBlock, StoreEntityMetaData, List.foldl]

/-- Witness for the amended C6 at the concrete live entity. -/
theorem extendBTL_spec_witness :
    (sampleLive.meta sampleKey ≠ zeroWord ∧
      (EntityMetaData.unmarshal (sampleLive.meta sampleKey)).expiresAtBlock + 3
        < 2 ^ 64 ∧ (3 : Nat) ≠ 0) ∧
    ((ExtendBTL sampleLive sampleKey 3).2.2
        = .ok ((EntityMetaData.unmarshal (sampleLive.meta sampleKey)).expiresAtBlock,
            (EntityMetaData.unmarshal (sampleLive.meta sampleKey)).owner) ∧
      sampleKey ∈ ((ExtendBTL sampleLive sampleKey 3).1).buckets
        ((EntityMetaData.unmarshal (sampleLive.meta sampleKey)).expiresAtBlock + 3) ∧
      sampleKey ∉ ((ExtendBTL sampleLive sampleKey 3).1).buckets
        (EntityMetaData.unmarshal (sampleLive.meta sampleKey)).expiresAtBlock) :=
  ⟨⟨by decide, by decide, by decide⟩,
    (extendBTL_spec sampleLive sampleKey 3 (by decide) (by decide)).1,
    (extendBTL_spec sampleLive sampleKey 3 (by decide) (by decide)).2.2.2.1,
    (extendBTL_spec sampleLive sampleKey 3 (by decide) (by decide)).2.2.2.2.1
      (by decide)⟩

/-! ## Housekeeping sweep (`arkiv/housekeepingtx`) -/

/-- Modelled from the spec: the distinguished log topic for entity expiration
events (`arkivlogs.ArkivEntityExpired`; the `arkiv/logs` package is not among
the sources).  An arbitrary fixed 32-byte constant, distinct from
`ArkivEntityCreated`. -/
def ArkivEntityExpired : List Nat := List.replicate 31 0 ++ [1]

/-- Modelled from the spec: the distinguished log topic for entity creation
events (`arkivlogs.ArkivEntityCreated`; not among the sources). -/
def ArkivEntityCreated : List Nat := List.replicate 31 0 ++ [2]

/-- Modelled from the spec: the fixed storage-processor address
(`address.ArkivProcessorAddress`; the `arkiv/address` package is not among
the sources).  An arbitrary fixed 20-byte constant. -/
def ArkivProcessorAddress : List Nat := List.replicate 19 0 ++ [7]

/-- `addressToHash`: a 20-byte address right-aligned in a 32-byte word. -/
def addressToHash (a : List Nat) : List Nat := List.replicate 12 0 ++ a

/-- One entry of a receipt's log stream (`types.Log`). -/
structure LogEntry where
  address : List Nat
  topics : List (List Nat)
  data : List Nat
  blockNumber : Nat
deriving DecidableEq, Repr

/-- The expiration log event appended by the housekeeping transaction for one
deleted entity: topics `[ArkivEntityExpired, key, owner-as-word]`, data = key. -/
def mkExpiredLog (bn : Nat) (key owner : List Nat) : LogEntry :=
  { address := ArkivProcessorAddress,
    topics := [ArkivEntityExpired, key, addressToHash owner],
    data := key,
    blockNumber := bn }

/-- Modelled from the spec:
`entityexpiration.IteratorOfEntitiesToExpireAtBlock` (the ExpirationIndex
`Sweep`; the package is not among the sources): the sequence of keys scheduled
to expire at `height`, i.e. the bucket's contents in order. -/
def IteratorOfEntitiesToExpireAtBlock (st : ChainState) (height : Nat) :
    List (List Nat) := st.buckets height

/-- The deletion loop of `ExecuteTransaction`: for each key in order, delete
the entity (aborting everything on failure) and append one expiration log. -/
def runExpirations (bn : Nat) : ChainState → List (List Nat) →
    Except String (List LogEntry × ChainState)
  | st, [] => .ok ([], st)
  | st, key :: rest =>
    let d := EntityDelete st key
    match d.2.2 with
    | .error e => .error e
    | .ok owner =>
      match runExpirations bn d.1 rest with
      | .error e => .error e
      | .ok p => .ok (mkExpiredLog bn key owner :: p.1, p.2)

/-- `housekeepingtx.ExecuteTransaction`: materialize the full list of keys
expiring at the current height, then delete them one by one, collecting one
expiration log per deleted key.  (The account-creation preamble and the
used-slot accounting update, which do not touch the entity store or the
index, are outside this model.) -/
def ExecuteTransaction (blockNumber : Nat) (st : ChainState) :
    Except String (List LogEntry × ChainState) :=
  let toDelete := IteratorOfEntitiesToExpireAtBlock st blockNumber
  runExpirations blockNumber st toDelete

theorem entityDelete_res_of_ne (st : ChainState) (key : List Nat)
    (h : st.meta key ≠ zeroWord) :
    (EntityDelete st key).2.2
      = .ok (EntityMetaData.unmarshal (st.meta key)).owner := by
  simp [EntityDelete, GetEntityMetaData, h, RemoveFromEntitiesToExpire,
    DeleteEntityMetadata]

theorem entityDelete_meta_of_ne (st : ChainState) (key k' : List Nat)
    (h : st.meta key ≠ zeroWord) :
    ((EntityDelete st key).1).meta k'
      = if k' = key then zeroWord else st.meta k' := by
  simp [EntityDelete, GetEntityMetaData, h, RemoveFromEntitiesToExpire,
    DeleteEntityMetadata, applyEffect]

theorem runExpirations_ok (keys : List (List Nat)) :
    ∀ (st : ChainState) (bn : Nat), keys.Nodup →
    (∀ k ∈ keys, st.meta k ≠ zeroWord) →
    ∃ st2, runExpirations bn st keys
      = .ok (keys.map
          (fun k => mkExpiredLog bn k (EntityMetaData.unmarshal (st.meta k)).owner),
        st2) := by
  induction keys with
  | nil => exact fun st bn _ _ => ⟨st, rfl⟩
  | cons k rest ih =>
    intro st bn hnd hm
    have hk : st.meta k ≠ zeroWord := hm k (List.mem_cons_self k rest)
    have hknotin : k ∉ rest := (List.nodup_cons.mp hnd).1
    have hm' : ∀ k' ∈ rest, ((EntityDelete st k).1).meta k' ≠ zeroWord := by
      intro k' hk'
      rw [entityDelete_meta_of_ne st k k' hk,
        if_neg (fun e : k' = k => hknotin (e ▸ hk'))]
      exact hm k' (List.mem_cons_of_mem k hk')
    obtain ⟨st2, hrun⟩ := ih (EntityDelete st k).1 bn (List.nodup_cons.mp hnd).2 hm'
    refine ⟨st2, ?_⟩
    have hmapeq : rest.map
        (fun k' => mkExpiredLog bn k'
          (EntityMetaData.unmarshal (((EntityDelete st k).1).meta k')).owner)
        = rest.map
        (fun k' => mkExpiredLog bn k'
          (EntityMetaData.unmarshal (st.meta k')).owner) := by
      apply List.map_congr_left
      intro k' hk'
      rw [entityDelete_meta_of_ne st k k' hk,
        if_neg (fun e : k' = k => hknotin (e ▸ hk'))]
    rw [runExpirations]
    simp only [entityDelete_res_of_ne st k hk, hrun, hmapeq, List.map_cons]

/-- Claim C7: the housekeeping sweep materializes the full expiring-key list
from the initial state before any deletion, and then, for each materialized
key in order, deletes the entity and appends exactly one expiration log event
carrying that key and its recorded owner: the emitted log list is exactly the
initial bucket contents mapped to their expiration logs. -/
theorem executeTransaction_spec (st : ChainState) (bn : Nat)
    (hnd : (st.buckets bn).Nodup)
    (hm : ∀ k ∈ st.buckets bn, st.meta k ≠ zeroWord) :
    ∃ st2, ExecuteTransaction bn st
      = .ok ((st.buckets bn).map
          (fun k => mkExpiredLog bn k (EntityMetaData.unmarshal (st.meta k)).owner),
        st2) :=
  runExpirations_ok (st.buckets bn) st bn hnd hm

def sampleKey2 : List Nat := List.replicate 32 2

/-- A state with two live entities scheduled to expire at height 9. -/
def sampleTwoLive : ChainState :=
  ⟨fun k => if k = sampleKey then sampleMeta.marshal
    else if k = sampleKey2 then (⟨List.replicate 20 8, 9⟩ : EntityMetaData).marshal
    else zeroWord,
   fun h => if h = 9 then [sampleKey, sampleKey2] else []⟩

/-- Witness for C7 at the concrete two-entity state. -/
theorem executeTransaction_spec_witness :
    ((sampleTwoLive.buckets 9).Nodup ∧
      ∀ k ∈ sampleTwoLive.buckets 9, sampleTwoLive.meta k ≠ zeroWord) ∧
    (∃ st2, ExecuteTransaction 9 sampleTwoLive
      = .ok ((sampleTwoLive.buckets 9).map
          (fun k => mkExpiredLog 9 k
            (EntityMetaData.unmarshal (sampleTwoLive.meta k)).owner),
        st2)) :=
  ⟨⟨by decide, by decide⟩,
    executeTransaction_spec sampleTwoLive 9 (by decide) (by decide)⟩

/-! ## Storage transactions and the codec (`arkiv/storagetx`)

The `storagetx` package itself is not among the sources (only its acceptance
test and its callers are), so the codec is modelled from the spec: a raw
payload either decodes to a structured transaction or is malformed, and
validation rejects a transaction whose total operation count exceeds 1000
before anything else happens. -/

structure StringAnnotation where
  key : String
  value : String
deriving DecidableEq, Repr

structure NumericAnnotation where
  key : String
  value : Nat
deriving DecidableEq, Repr

structure CreateOp where
  contentType : String
  btl : Nat
  payload : List Nat
  stringAnnotations : List StringAnnotation
  numericAnnotations : List NumericAnnotation
deriving DecidableEq, Repr

structure UpdateOp where
  entityKey : List Nat
  contentType : String
  btl : Nat
  payload : List Nat
  stringAnnotations : List StringAnnotation
  numericAnnotations : List NumericAnnotation
deriving DecidableEq, Repr

structure ExtendOp where
  entityKey : List Nat
  numberOfBlocks : Nat
deriving DecidableEq, Repr

structure ChangeOwnerOp where
  entityKey : List Nat
  newOwner : List Nat
deriving DecidableEq, Repr

/-- `storagetx.ArkivTransaction`: the five typed operation lists.  A delete
operation is just the entity key. -/
structure ArkivTransaction where
  create : List CreateOp
  update : List UpdateOp
  extend : List ExtendOp
  changeOwner : List ChangeOwnerOp
  delete : List (List Nat)
deriving DecidableEq, Repr

def totalOperationCount (atx : ArkivTransaction) : Nat :=
  atx.create.length + atx.update.length + atx.extend.length
    + atx.changeOwner.length + atx.delete.length

inductive TxValidationError
  | operationCountExceeded (count : Nat)
  | decodeError
deriving DecidableEq, Repr

/-- A raw transaction payload, abstracted: it either encodes a structured
storage transaction or is undecodable. -/
inductive RawPayload
  | wellFormed (atx : ArkivTransaction)
  | malformed
deriving DecidableEq, Repr

/-- Modelled from the spec: `storagetx.UnpackArkivTransaction` — decode the
raw payload (rejecting undecodable data outright) and validate the structural
limit: a total operation count above 1000 rejects the whole transaction with
an operation-count error carrying the attempted count.  No state is in scope:
mutation can only follow a successful decode. -/
def UnpackArkivTransaction : RawPayload → Except TxValidationError ArkivTransaction
  | .malformed => .error .decodeError
  | .wellFormed atx =>
    if 1000 < totalOperationCount atx then
      .error (.operationCountExceeded (totalOperationCount atx))
    else .ok atx

/-- Claim C9: a payload whose total operation count across all five operation
types exceeds 1000 is rejected whole with an operation-count error reporting
the attempted count; no `ok` value (hence no downstream mutation) is
produced. -/
theorem unpack_rejects_oversized (atx : ArkivTransaction)
    (h : 1000 < totalOperationCount atx) :
    UnpackArkivTransaction (.wellFormed atx)
      = .error (.operationCountExceeded (totalOperationCount atx)) := by
  simp [UnpackArkivTransaction, h]

def sampleCreateOp : CreateOp :=
  { contentType := "text", btl := 10, payload := [1, 2, 3],
    stringAnnotations := [], numericAnnotations := [] }

/-- A transaction holding 1001 operations. -/
def sampleOversized : ArkivTransaction :=
  { create := List.replicate 1001 sampleCreateOp, update := [], extend := [],
    changeOwner := [], delete := [] }

set_option maxRecDepth 20000 in
/-- Witness for C9 at the concrete 1001-operation transaction. -/
theorem unpack_rejects_oversized_witness :
    1000 < totalOperationCount sampleOversized ∧
      UnpackArkivTransaction (.wellFormed sampleOversized)
        = .error (.operationCountExceeded (totalOperationCount sampleOversized)) :=
  ⟨by simp [totalOperationCount, sampleOversized],
    unpack_rejects_oversized sampleOversized
      (by simp [totalOperationCount, sampleOversized])⟩

/-! ## Event derivation (`arkiv/dbevents`, `blockToEvents`) -/

/-- A transaction as `blockToEvents` consumes it: destination address, raw
payload, and the sender recovered from the signature (signature recovery is an
external capability, carried as a field that either yields the 20-byte sender
or fails). -/
structure Transaction where
  toAddr : Option (List Nat)
  data : RawPayload
  sender : Except String (List Nat)

/-- A receipt: execution status and log stream (`types.Receipt`). -/
structure Receipt where
  status : Nat
  logs : List LogEntry

def ReceiptStatusSuccessful : Nat := 1

/-- A committed block as the deriver consumes it. -/
structure Block where
  number : Nat
  transactions : List Transaction

/-- `events.OPCreate`.  The Go `map[string]...` attribute maps are modelled by
their lookup functions (last insertion wins). -/
structure OPCreate where
  key : List Nat
  contentType : String
  btl : Nat
  owner : List Nat
  content : List Nat
  stringAttributes : String → Option String
  numericAttributes : String → Option Nat

structure OPUpdate where
  key : List Nat
  contentType : String
  btl : Nat
  owner : List Nat
  content : List Nat
  stringAttributes : String → Option String
  numericAttributes : String → Option Nat

structure OPExtendBTL where
  key : List Nat
  btl : Nat
deriving DecidableEq, Repr

structure OPChangeOwner where
  key : List Nat
  owner : List Nat
deriving DecidableEq, Repr

/-- `events.Operation`: `(TxIndex, OpIndex)` plus exactly one populated
variant pointer (absent pointers are `none`). -/
structure Operation where
  txIndex : Nat
  opIndex : Nat
  create : Option OPCreate := none
  update : Option OPUpdate := none
  extendBTL : Option OPExtendBTL := none
  changeOwner : Option OPChangeOwner := none
  delete : Option (List Nat) := none
  expire : Option (List Nat) := none

/-- `events.Block`: block number plus the ordered operation list. -/
structure EventsBlock where
  number : Nat
  operations : List Operation

def stringAnnotationsToMap (annotations : List StringAnnotation) :
    String → Option String :=
  annotations.foldl (fun m a => fun k => if k = a.key then some a.value else m k)
    (fun _ => none)

def numericAnnotationsToMap (annotations : List NumericAnnotation) :
    String → Option Nat :=
  annotations.foldl (fun m a => fun k => if k = a.key then some a.value else m k)
    (fun _ => none)

/-- `createdEntities`: the entity keys of the receipt's `ArkivEntityCreated`
logs, in log order (`Topics[1]` of each matching log).  The unguarded
`Topics[0]`/`Topics[1]` accesses of the source are runtime faults on malformed
receipts; they are modelled as skips, which no well-formed receipt reaches. -/
def createdEntities (r : Receipt) : List (List Nat) :=
  r.logs.filterMap fun log =>
    match log.topics with
    | [] => none
    | t0 :: rest => if t0 = ArkivEntityCreated then rest.head? else none

/-- The create loop of `blockToEvents` for transaction `i`: `opIndex` counts
from 0 over the create list, and the k-th create consumes the k-th created
entity key (strictly positional pairing; a missing key would be a runtime
fault in the source and reads as the zero word here). -/
def createLoop (i : Nat) (sender : List Nat) (createdKeys : List (List Nat))
    (l : List CreateOp) : List Operation :=
  l.enum.map fun p =>
    { txIndex := i, opIndex := p.1,
      create := some
        { key := createdKeys.getD p.1 zeroWord,
          contentType := p.2.contentType,
          btl := p.2.btl,
          owner := sender,
          content := p.2.payload,
          stringAttributes := stringAnnotationsToMap p.2.stringAnnotations,
          numericAttributes := numericAnnotationsToMap p.2.numericAnnotations } }

/-- The update loop of `blockToEvents` for transaction `i`. -/
def updateLoop (i : Nat) (sender : List Nat) (l : List UpdateOp) :
    List Operation :=
  l.enum.map fun p =>
    { txIndex := i, opIndex := p.1,
      update := some
        { key := p.2.entityKey,
          contentType := p.2.contentType,
          btl := p.2.btl,
          owner := sender,
          content := p.2.payload,
          stringAttributes := stringAnnotationsToMap p.2.stringAnnotations,
          numericAttributes := numericAnnotationsToMap p.2.numericAnnotations } }

/-- The extend loop of `blockToEvents` for transaction `i`. -/
def extendLoop (i : Nat) (l : List ExtendOp) : List Operation :=
  l.enum.map fun p =>
    { txIndex := i, opIndex := p.1,
      extendBTL := some { key := p.2.entityKey, btl := p.2.numberOfBlocks } }

/-- The change-owner loop of `blockToEvents` for transaction `i`. -/
def changeOwnerLoop (i : Nat) (l : List ChangeOwnerOp) : List Operation :=
  l.enum.map fun p =>
    { txIndex := i, opIndex := p.1,
      changeOwner := some { key := p.2.entityKey, owner := p.2.newOwner } }

/-- The delete loop of `blockToEvents` for transaction `i`. -/
def deleteLoop (i : Nat) (l : List (List Nat)) : List Operation :=
  l.enum.map fun p =>
    { txIndex := i, opIndex := p.1, delete := some p.2 }

/-- All operations `blockToEvents` emits for one successful storage
transaction with index `i`: the five per-type loops in source order, each
restarting `opIndex` at 0. -/
def txOps (i : Nat) (sender : List Nat) (createdKeys : List (List Nat))
    (atx : ArkivTransaction) : List Operation :=
  createLoop i sender createdKeys atx.create
  ++ updateLoop i sender atx.update
  ++ extendLoop i atx.extend
  ++ changeOwnerLoop i atx.changeOwner
  ++ deleteLoop i atx.delete

inductive BlockToEventsError
  | unpackFailed (e : TxValidationError)
  | senderFailed (e : String)
  | receiptOutOfRange (i : Nat)
deriving DecidableEq, Repr

/-- The transaction loop of `blockToEvents` over the enumerated transaction
list: transactions without a destination, with a destination other than the
storage processor, or with an unsuccessful receipt are skipped; an
undecodable payload or an unrecoverable sender aborts the whole derivation.
(The source indexes `rawReceipts[i]` unguarded; an out-of-range index is a
runtime fault, modelled as an error.) -/
def txLoop (receipts : List Receipt) :
    List (Nat × Transaction) → Except BlockToEventsError (List Operation)
  | [] => .ok []
  | p :: rest =>
    match p.2.toAddr with
    | none => txLoop receipts rest
    | some dst =>
      if dst = ArkivProcessorAddress then
        match receipts.get? p.1 with
        | none => .error (.receiptOutOfRange p.1)
        | some receipt =>
          if receipt.status = ReceiptStatusSuccessful then
            match UnpackArkivTransaction p.2.data with
            | .error e => .error (.unpackFailed e)
            | .ok atx =>
              match p.2.sender with
              | .error e => .error (.senderFailed e)
              | .ok sender =>
                match txLoop receipts rest with
                | .error e => .error e
                | .ok ops =>
                  .ok (txOps p.1 sender (createdEntities receipt) atx ++ ops)
          else txLoop receipts rest
      else txLoop receipts rest

/-- The expiration scan of `blockToEvents` over the first receipt's log
stream: logs with no topics are skipped; each log whose first topic is the
expiration topic and whose data holds at least 32 bytes yields one Expire
operation with `TxIndex = 0`, `OpIndex` = the log's index in the stream, and
the first 32 data bytes as the entity key. -/
def expireOps (logs : List LogEntry) : List Operation :=
  logs.enum.filterMap fun p =>
    match p.2.topics with
    | [] => none
    | t0 :: _ =>
      if t0 = ArkivEntityExpired ∧ 32 ≤ p.2.data.length then
        some { txIndex := 0, opIndex := p.1, expire := some (p.2.data.take 32) }
      else none

/-- `blockToEvents`: an empty receipt list yields an empty operation list;
otherwise the Expire operations scanned from the first receipt's logs come
first, followed by the per-transaction operations in transaction order. -/
def blockToEvents (rawBlock : Block) (rawReceipts : List Receipt) :
    Except BlockToEventsError EventsBlock :=
  match rawReceipts with
  | [] => .ok { number := rawBlock.number, operations := [] }
  | firstReceipt :: _ =>
    match txLoop rawReceipts rawBlock.transactions.enum with
    | .error e => .error e
    | .ok ops =>
      .ok { number := rawBlock.number,
            operations := expireOps firstReceipt.logs ++ ops }

/-! ## Order and identity of derived operations -/

/-- Which variant of an `Operation` is populated (0 = Expire, 1 = Create,
2 = Update, 3 = ExtendBTL, 4 = ChangeOwner, 5 = Delete). -/
def opTag (o : Operation) : Nat :=
  if o.expire.isSome then 0
  else if o.create.isSome then 1
  else if o.update.isSome then 2
  else if o.extendBTL.isSome then 3
  else if o.changeOwner.isSome then 4
  else if o.delete.isSome then 5
  else 6

/-- The identity of an operation inside a block: transaction index, variant,
operation index. -/
def opSig (o : Operation) : Nat × Nat × Nat := (o.txIndex, opTag o, o.opIndex)

theorem map_opSig_enum_chunk {α : Type} (l : List α) (f : Nat × α → Operation)
    (i t : Nat) (hf : ∀ p, opSig (f p) = (i, t, p.1)) :
    (l.enum.map f).map opSig = (List.range l.length).map (fun k => (i, t, k)) := by
  rw [List.map_map]
  rw [show opSig ∘ f = (fun k => (i, t, k)) ∘ Prod.fst from funext hf]
  rw [← List.map_map, List.enum_map_fst]

theorem createLoop_map_opSig (i : Nat) (sender : List Nat)
    (createdKeys : List (List Nat)) (l : List CreateOp) :
    (createLoop i sender createdKeys l).map opSig
      = (List.range l.length).map (fun k => (i, 1, k)) := by
  rw [createLoop]
  exact map_opSig_enum_chunk _ _ i 1 (fun p => rfl)

theorem updateLoop_map_opSig (i : Nat) (sender : List Nat) (l : List UpdateOp) :
    (updateLoop i sender l).map opSig
      = (List.range l.length).map (fun k => (i, 2, k)) := by
  rw [updateLoop]
  exact map_opSig_enum_chunk _ _ i 2 (fun p => rfl)

theorem extendLoop_map_opSig (i : Nat) (l : List ExtendOp) :
    (extendLoop i l).map opSig
      = (List.range l.length).map (fun k => (i, 3, k)) := by
  rw [extendLoop]
  exact map_opSig_enum_chunk _ _ i 3 (fun p => rfl)

theorem changeOwnerLoop_map_opSig (i : Nat) (l : List ChangeOwnerOp) :
    (changeOwnerLoop i l).map opSig
      = (List.range l.length).map (fun k => (i, 4, k)) := by
  rw [changeOwnerLoop]
  exact map_opSig_enum_chunk _ _ i 4 (fun p => rfl)

theorem deleteLoop_map_opSig (i : Nat) (l : List (List Nat)) :
    (deleteLoop i l).map opSig
      = (List.range l.length).map (fun k => (i, 5, k)) := by
  rw [deleteLoop]
  exact map_opSig_enum_chunk _ _ i 5 (fun p => rfl)

theorem nodup_chunk_sigs (i t n : Nat) :
    ((List.range n).map (fun k => (i, t, k))).Nodup :=
  (List.nodup_range n).map (fun a b h => by
    have := congrArg (fun x : Nat × Nat × Nat => x.2.2) h
    simpa using this)

theorem mem_chunk_sigs {i t n : Nat} {a : Nat × Nat × Nat}
    (h : a ∈ (List.range n).map (fun k => (i, t, k))) :
    a.1 = i ∧ a.2.1 = t := by
  simp only [List.mem_map] at h
  obtain ⟨k, _, rfl⟩ := h
  exact ⟨rfl, rfl⟩

theorem chunk_sigs_disjoint {i t n : Nat} {i' t' n' : Nat} (h : t ≠ t') :
    ((List.range n).map (fun k => (i, t, k))).Disjoint
      ((List.range n').map (fun k => (i', t', k))) := by
  intro a ha hb
  exact h (((mem_chunk_sigs ha).2.symm).trans (mem_chunk_sigs hb).2)

theorem txOps_map_opSig (i : Nat) (sender : List Nat)
    (createdKeys : List (List Nat)) (atx : ArkivTransaction) :
    (txOps i sender createdKeys atx).map opSig
      = (List.range atx.create.length).map (fun k => (i, 1, k))
        ++ (List.range atx.update.length).map (fun k => (i, 2, k))
        ++ (List.range atx.extend.length).map (fun k => (i, 3, k))
        ++ (List.range atx.changeOwner.length).map (fun k => (i, 4, k))
        ++ (List.range atx.delete.length).map (fun k => (i, 5, k)) := by
  rw [txOps, List.map_append, List.map_append, List.map_append, List.map_append,
    createLoop_map_opSig, updateLoop_map_opSig, extendLoop_map_opSig,
    changeOwnerLoop_map_opSig, deleteLoop_map_opSig]

theorem txOps_sigs_nodup (i : Nat) (sender : List Nat)
    (createdKeys : List (List Nat)) (atx : ArkivTransaction) :
    ((txOps i sender createdKeys atx).map opSig).Nodup := by
  rw [txOps_map_opSig]
  refine List.Nodup.append
    (List.Nodup.append
      (List.Nodup.append
        (List.Nodup.append (nodup_chunk_sigs i 1 _) (nodup_chunk_sigs i 2 _)
          (chunk_sigs_disjoint (by decide)))
        (nodup_chunk_sigs i 3 _)
        (List.disjoint_append_left.mpr
          ⟨chunk_sigs_disjoint (by decide), chunk_sigs_disjoint (by decide)⟩))
      (nodup_chunk_sigs i 4 _)
      (List.disjoint_append_left.mpr
        ⟨List.disjoint_append_left.mpr
          ⟨chunk_sigs_disjoint (by decide), chunk_sigs_disjoint (by decide)⟩,
          chunk_sigs_disjoint (by decide)⟩))
    (nodup_chunk_sigs i 5 _)
    (List.disjoint_append_left.mpr
      ⟨List.disjoint_append_left.mpr
        ⟨List.disjoint_append_left.mpr
          ⟨chunk_sigs_disjoint (by decide), chunk_sigs_disjoint (by decide)⟩,
          chunk_sigs_disjoint (by decide)⟩,
        chunk_sigs_disjoint (by decide)⟩)

theorem txOps_mem_props (i : Nat) (sender : List Nat)
    (createdKeys : List (List Nat)) (atx : ArkivTransaction) :
    ∀ o ∈ txOps i sender createdKeys atx,
      o.txIndex = i ∧ 1 ≤ opTag o ∧ o.expire = none := by
  intro o ho
  rw [txOps] at ho
  simp only [List.mem_append, createLoop, updateLoop, extendLoop,
    changeOwnerLoop, deleteLoop, List.mem_map] at ho
  rcases ho with ((((⟨p, _, rfl⟩ | ⟨p, _, rfl⟩) | ⟨p, _, rfl⟩) | ⟨p, _, rfl⟩)
    | ⟨p, _, rfl⟩) <;> exact ⟨rfl, by simp [opTag], rfl⟩

theorem nodup_filterMap_enum_thd {α : Type} (g : Nat × α → Option (Nat × Nat × Nat))
    (hg : ∀ p b, g p = some b → b.2.2 = p.1) :
    ∀ l : List (Nat × α), (l.map Prod.fst).Nodup → (l.filterMap g).Nodup := by
  intro l
  induction l with
  | nil => intro _; simp
  | cons p rest ih =>
    intro hnd
    have hnd' : (rest.map Prod.fst).Nodup := (List.nodup_cons.mp hnd).2
    have hp1notin : p.1 ∉ rest.map Prod.fst := (List.nodup_cons.mp hnd).1
    rw [List.filterMap_cons]
    cases hgp : g p with
    | none => exact ih hnd'
    | some b =>
      rw [List.nodup_cons]
      refine ⟨?_, ih hnd'⟩
      intro hb
      obtain ⟨q, hq, hgq⟩ := List.mem_filterMap.mp hb
      exact hp1notin (((hg p b hgp).symm.trans (hg q b hgq)) ▸
        List.mem_map_of_mem Prod.fst hq)

theorem expireOps_map_opSig (logs : List LogEntry) :
    (expireOps logs).map opSig = logs.enum.filterMap (fun p =>
      match p.2.topics with
      | [] => none
      | t0 :: _ =>
        if t0 = ArkivEntityExpired ∧ 32 ≤ p.2.data.length
        then some ((0 : Nat), (0 : Nat), p.1) else none) := by
  rw [expireOps, List.map_filterMap]
  congr 1
  funext p
  rcases p with ⟨k, log⟩
  cases htop : log.topics with
  | nil => rfl
  | cons t0 rest =>
    by_cases hc : t0 = ArkivEntityExpired ∧ 32 ≤ log.data.length
    · simp only [if_pos hc]
      rfl
    · simp only [if_neg hc]
      rfl

theorem expireOps_sigs_nodup (logs : List LogEntry) :
    ((expireOps logs).map opSig).Nodup := by
  rw [expireOps_map_opSig]
  apply nodup_filterMap_enum_thd
  · intro p b hb
    split at hb
    · cases hb
    · split at hb
      · injection hb with hb'
        rw [← hb']
      · cases hb
  · rw [List.enum_map_fst]
    exact List.nodup_range _

theorem expireOps_mem_props (logs : List LogEntry) :
    ∀ o ∈ expireOps logs, o.txIndex = 0 ∧ opTag o = 0 ∧ o.expire.isSome := by
  intro o ho
  simp only [expireOps, List.mem_filterMap] at ho
  obtain ⟨p, _, hp⟩ := ho
  split at hp
  · cases hp
  · split at hp
    · injection hp with hp'
      rw [← hp']
      exact ⟨rfl, rfl, rfl⟩
    · cases hp

theorem txLoop_cons_shape (receipts : List Receipt) (p : Nat × Transaction)
    (rest : List (Nat × Transaction)) (ops : List Operation)
    (h : txLoop receipts (p :: rest) = .ok ops) :
    ∃ ops', txLoop receipts rest = .ok ops' ∧
      (ops = ops' ∨ ∃ receipt sender atx,
        receipts.get? p.1 = some receipt ∧
        ops = txOps p.1 sender (createdEntities receipt) atx ++ ops') := by
  rw [txLoop] at h
  split at h
  · exact ⟨ops, h, Or.inl rfl⟩
  · split at h
    · split at h
      · simp at h
      · split at h
        · split at h
          · simp at h
          · split at h
            · simp at h
            · cases hrest : txLoop receipts rest with
              | error e => rw [hrest] at h; simp at h
              | ok ops' =>
                rw [hrest] at h
                injection h with h'
                refine ⟨ops', rfl, Or.inr ⟨_, _, _, ?_, h'.symm⟩⟩
                assumption
        · exact ⟨ops, h, Or.inl rfl⟩
    · exact ⟨ops, h, Or.inl rfl⟩

theorem txLoop_ok_props (receipts : List Receipt) :
    ∀ (pairs : List (Nat × Transaction)) (ops : List Operation),
    txLoop receipts pairs = .ok ops → (pairs.map Prod.fst).Nodup →
    ((ops.map opSig).Nodup
      ∧ ∀ o ∈ ops, o.txIndex ∈ pairs.map Prod.fst ∧ 1 ≤ opTag o ∧ o.expire = none) := by
  intro pairs
  induction pairs with
  | nil =>
    intro ops h _
    rw [txLoop] at h
    injection h with h'
    subst h'
    simp
  | cons p rest ih =>
    intro ops h hnd
    have hnd' : (rest.map Prod.fst).Nodup := (List.nodup_cons.mp hnd).2
    have hp1notin : p.1 ∉ rest.map Prod.fst := (List.nodup_cons.mp hnd).1
    obtain ⟨ops', hrest, hcase⟩ := txLoop_cons_shape receipts p rest ops h
    obtain ⟨ihnd, ihmem⟩ := ih ops' hrest hnd'
    rcases hcase with rfl | ⟨receipt, sender, atx, hrc, rfl⟩
    · refine ⟨ihnd, fun o ho => ⟨?_, (ihmem o ho).2⟩⟩
      exact List.mem_cons_of_mem p.1 (ihmem o ho).1
    · constructor
      · rw [List.map_append]
        refine List.Nodup.append (txOps_sigs_nodup _ _ _ _) ihnd ?_
        intro a ha hb
        obtain ⟨o, ho, rfl⟩ := List.mem_map.mp ha
        obtain ⟨o', ho', hoo'⟩ := List.mem_map.mp hb
        have h1 : o.txIndex = p.1 := (txOps_mem_props _ _ _ _ o ho).1
        have h2 : o'.txIndex ∈ rest.map Prod.fst := (ihmem o' ho').1
        have h3 : o'.txIndex = o.txIndex := congrArg Prod.fst hoo'
        rw [h3, h1] at h2
        exact hp1notin h2
      · intro o ho
        rcases List.mem_append.mp ho with ho | ho
        · obtain ⟨h1, h2, h3⟩ := txOps_mem_props _ _ _ _ o ho
          exact ⟨h1 ▸ List.mem_cons_self _ _, h2, h3⟩
        · obtain ⟨h1, h2, h3⟩ := ihmem o ho
          exact ⟨List.mem_cons_of_mem p.1 h1, h2, h3⟩

theorem txLoop_cons_processed (receipts : List Receipt) (i : Nat)
    (tx : Transaction) (receipt : Receipt) (sender : List Nat)
    (atx : ArkivTransaction) (rest : List (Nat × Transaction))
    (hto : tx.toAddr = some ArkivProcessorAddress)
    (hrc : receipts.get? i = some receipt)
    (hst : receipt.status = ReceiptStatusSuccessful)
    (hun : UnpackArkivTransaction tx.data = .ok atx)
    (hsd : tx.sender = .ok sender) :
    txLoop receipts ((i, tx) :: rest)
      = match txLoop receipts rest with
        | .error e => .error e
        | .ok ops => .ok (txOps i sender (createdEntities receipt) atx ++ ops) := by
  rw [txLoop, hto]
  simp only [hrc, hst, hun, hsd, if_pos]

/-- The operations of `blockToEvents` stamped with transaction index `i` (and
not Expire) are exactly the five per-type loops of transaction `i` itself, in
source order — provenance of `TxIndex`. -/
theorem txLoop_filter (receipts : List Receipt) (i : Nat) (tx : Transaction)
    (receipt : Receipt) (sender : List Nat) (atx : ArkivTransaction)
    (hto : tx.toAddr = some ArkivProcessorAddress)
    (hrc : receipts.get? i = some receipt)
    (hst : receipt.status = ReceiptStatusSuccessful)
    (hun : UnpackArkivTransaction tx.data = .ok atx)
    (hsd : tx.sender = .ok sender) :
    ∀ (pairs : List (Nat × Transaction)) (ops : List Operation),
    txLoop receipts pairs = .ok ops → (pairs.map Prod.fst).Nodup →
    (i, tx) ∈ pairs →
    ops.filter (fun o => o.txIndex == i && o.expire.isNone)
      = txOps i sender (createdEntities receipt) atx := by
  intro pairs
  induction pairs with
  | nil => intro ops _ _ hmem; cases hmem
  | cons p rest ih =>
    intro ops h hnd hmem
    have hnd' : (rest.map Prod.fst).Nodup := (List.nodup_cons.mp hnd).2
    have hp1notin : p.1 ∉ rest.map Prod.fst := (List.nodup_cons.mp hnd).1
    rcases List.mem_cons.mp hmem with heq | hmem'
    · subst heq
      rw [txLoop_cons_processed receipts i tx receipt sender atx rest
        hto hrc hst hun hsd] at h
      cases hrest : txLoop receipts rest with
      | error e => rw [hrest] at h; simp at h
      | ok ops' =>
        rw [hrest] at h
        injection h with h'
        rw [← h', List.filter_append]
        have hfilter1 : (txOps i sender (createdEntities receipt) atx).filter
            (fun o => o.txIndex == i && o.expire.isNone)
            = txOps i sender (createdEntities receipt) atx := by
          apply List.filter_eq_self.mpr
          intro o ho
          obtain ⟨h1, _, h3⟩ := txOps_mem_props _ _ _ _ o ho
          simp [h1, h3]
        have hfilter2 : ops'.filter
            (fun o => o.txIndex == i && o.expire.isNone) = [] := by
          apply List.filter_eq_nil_iff.mpr
          intro o ho
          have hin := ((txLoop_ok_props receipts rest ops' hrest hnd').2 o ho).1
          have hne : o.txIndex ≠ i := fun e => hp1notin (e ▸ hin)
          simp [hne]
        rw [hfilter1, hfilter2, List.append_nil]
    · have hi_in : i ∈ rest.map Prod.fst := List.mem_map_of_mem Prod.fst hmem'
      obtain ⟨ops', hrest, hcase⟩ := txLoop_cons_shape receipts p rest ops h
      rcases hcase with rfl | ⟨receipt', sender', atx', hrc', rfl⟩
      · exact ih _ hrest hnd' hmem'
      · rw [List.filter_append]
        have hne : p.1 ≠ i := fun e => hp1notin (e ▸ hi_in)
        have hfilter1 : (txOps p.1 sender' (createdEntities receipt') atx').filter
            (fun o => o.txIndex == i && o.expire.isNone) = [] := by
          apply List.filter_eq_nil_iff.mpr
          intro o ho
          have h1 : o.txIndex = p.1 := (txOps_mem_props _ _ _ _ o ho).1
          have : o.txIndex ≠ i := h1 ▸ hne
          simp [this]
        rw [hfilter1, ih ops' hrest hnd' hmem', List.nil_append]

/-- Claim C2 (amended): every Operation of a derived block carries the index
of the transaction (or log scan) that produced it, and an OpIndex sequential
within each operation-type list of that transaction; the triples
(TxIndex, variant, OpIndex) are pairwise distinct over the block, but two
Operations of different variants may share the same (TxIndex, OpIndex) pair
— only per-variant order is total.  Formally: the `opSig` triples of the
derived operations are Nodup, and the non-Expire operations stamped with
transaction index `i` are exactly the five per-type loops of the transaction
at position `i`. -/
theorem blockToEvents_op_order (rb : Block) (rr : List Receipt)
    (evb : EventsBlock) (h : blockToEvents rb rr = .ok evb) :
    (evb.operations.map opSig).Nodup ∧
    (∀ (i : Nat) (tx : Transaction) (receipt : Receipt) (sender : List Nat)
        (atx : ArkivTransaction),
      rb.transactions.get? i = some tx →
      tx.toAddr = some ArkivProcessorAddress →
      rr.get? i = some receipt →
      receipt.status = ReceiptStatusSuccessful →
      UnpackArkivTransaction tx.data = .ok atx →
      tx.sender = .ok sender →
      evb.operations.filter (fun o => o.txIndex == i && o.expire.isNone)
        = txOps i sender (createdEntities receipt) atx) := by
  cases rr with
  | nil =>
    rw [blockToEvents] at h
    injection h with h'
    rw [← h']
    refine ⟨by simp, ?_⟩
    intro i tx receipt sender atx _ _ hrc _ _ _
    simp at hrc
  | cons r rrest =>
    rw [blockToEvents] at h
    cases hloop : txLoop (r :: rrest) rb.transactions.enum with
    | error e => rw [hloop] at h; simp at h
    | ok ops =>
      rw [hloop] at h
      injection h with h'
      rw [← h']
      have hennd : (rb.transactions.enum.map Prod.fst).Nodup := by
        rw [List.enum_map_fst]; exact List.nodup_range _
      obtain ⟨htxnd, htxmem⟩ := txLoop_ok_props (r :: rrest) _ ops hloop hennd
      constructor
      · show ((expireOps r.logs ++ ops).map opSig).Nodup
        rw [List.map_append]
        refine List.Nodup.append (expireOps_sigs_nodup r.logs) htxnd ?_
        intro a ha hb
        obtain ⟨o, ho, rfl⟩ := List.mem_map.mp ha
        obtain ⟨o', ho', hoo'⟩ := List.mem_map.mp hb
        have h1 : opTag o = 0 := (expireOps_mem_props r.logs o ho).2.1
        have h2 : 1 ≤ opTag o' := (htxmem o' ho').2.1
        have h3 : opTag o' = opTag o := congrArg (fun x : Nat × Nat × Nat => x.2.1) hoo'
        omega
      · intro i tx receipt sender atx hget hto hrc hst hun hsd
        show (expireOps r.logs ++ ops).filter _ = _
        rw [List.filter_append]
        have hexp : (expireOps r.logs).filter
            (fun o => o.txIndex == i && o.expire.isNone) = [] := by
          apply List.filter_eq_nil_iff.mpr
          intro o ho
          obtain ⟨e, he⟩ := Option.isSome_iff_exists.mp
            (expireOps_mem_props r.logs o ho).2.2
          simp [he]
        rw [hexp, List.nil_append]
        refine txLoop_filter (r :: rrest) i tx receipt sender atx
          hto hrc hst hun hsd rb.transactions.enum ops hloop hennd ?_
        exact List.mk_mem_enum_iff_getElem?.mpr
          (by rw [← List.get?_eq_getElem?]; exact hget)

def cexUpdateOp : UpdateOp :=
  { entityKey := List.replicate 32 4, contentType := "text", btl := 5,
    payload := [9], stringAnnotations := [], numericAnnotations := [] }

def cexAtx : ArkivTransaction :=
  { create := [sampleCreateOp], update := [cexUpdateOp],
    extend := [], changeOwner := [], delete := [] }

def cexTx : Transaction :=
  { toAddr := some ArkivProcessorAddress, data := .wellFormed cexAtx,
    sender := .ok sampleOwner }

def cexCreatedLog : LogEntry :=
  { address := ArkivProcessorAddress,
    topics := [ArkivEntityCreated, List.replicate 32 3],
    data := [], blockNumber := 1 }

def cexBlock : Block := { number := 1, transactions := [cexTx] }

def cexReceipt : Receipt := { status := 1, logs := [cexCreatedLog] }

/-- Counterexample to claim C2 as stated: a block with one successful storage
transaction holding one Create and one Update derives two Operations that
both carry (TxIndex, OpIndex) = (0, 0) — the pair does not identify an
Operation of the block. -/
theorem op_pair_collision_counterexample :
    ((blockToEvents cexBlock [cexReceipt]).toOption.map
        (fun evb => evb.operations.map fun o => (o.txIndex, o.opIndex)))
      = some [(0, 0), (0, 0)] ∧
    ¬ ([((0 : Nat), (0 : Nat)), (0, 0)] : List (Nat × Nat)).Nodup :=
  ⟨by decide, by decide⟩

/-- Witness for the amended C2 at the concrete one-transaction block. -/
theorem blockToEvents_op_order_witness :
    ∃ evb, blockToEvents cexBlock [cexReceipt] = .ok evb ∧
      (evb.operations.map opSig).Nodup ∧
      evb.operations.filter (fun o => o.txIndex == 0 && o.expire.isNone)
        = txOps 0 sampleOwner (createdEntities cexReceipt) cexAtx :=
  ⟨_, rfl, (blockToEvents_op_order cexBlock [cexReceipt] _ rfl).1,
    (blockToEvents_op_order cexBlock [cexReceipt] _ rfl).2 0 cexTx cexReceipt
      sampleOwner cexAtx rfl rfl rfl rfl rfl rfl⟩

/-- The Expire payload of an operation, if it is an Expire operation:
(TxIndex, OpIndex, entity key). -/
def opExpireData (o : Operation) : Option (Nat × Nat × List Nat) :=
  o.expire.map fun e => (o.txIndex, o.opIndex, e)

/-- The log stream of the first (system) receipt of a block, if any. -/
def firstLogs : List Receipt → List LogEntry
  | [] => []
  | r :: _ => r.logs

/-- The expected Expire events of a log stream, written out independently of
the deriver: one triple per log whose first topic is the expiration topic and
whose data holds at least 32 bytes, carrying TxIndex 0, the log's index in
the stream as OpIndex, and the first 32 data bytes as the entity key. -/
def expectedExpireEvents (logs : List LogEntry) : List (Nat × Nat × List Nat) :=
  logs.enum.filterMap fun p =>
    match p.2.topics with
    | [] => none
    | t0 :: _ =>
      if t0 = ArkivEntityExpired ∧ 32 ≤ p.2.data.length
      then some (0, p.1, p.2.data.take 32) else none

/-- Claim C3 (amended): a derived block contains exactly one Expire Operation
per expiration log event of the first receipt's log stream (first topic =
expiration topic, data at least 32 bytes), each with TxIndex = 0, the entity
key read from the log's first 32 data bytes, and OpIndex equal to the log's
index within the receipt's log list — positions of non-matching logs are
skipped, so OpIndex values are strictly increasing in log order but not
consecutively renumbered from 0. -/
theorem blockToEvents_expire_events (rb : Block) (rr : List Receipt)
    (evb : EventsBlock) (h : blockToEvents rb rr = .ok evb) :
    evb.operations.filterMap opExpireData
      = expectedExpireEvents (firstLogs rr) := by
  cases rr with
  | nil =>
    rw [blockToEvents] at h
    injection h with h'
    rw [← h']
    rfl
  | cons r rrest =>
    rw [blockToEvents] at h
    cases hloop : txLoop (r :: rrest) rb.transactions.enum with
    | error e => rw [hloop] at h; simp at h
    | ok ops =>
      rw [hloop] at h
      injection h with h'
      rw [← h']
      show (expireOps r.logs ++ ops).filterMap opExpireData
        = expectedExpireEvents (firstLogs (r :: rrest))
      rw [show firstLogs (r :: rrest) = r.logs from rfl]
      rw [List.filterMap_append]
      have hops : ops.filterMap opExpireData = [] := by
        apply List.filterMap_eq_nil_iff.mpr
        intro o ho
        have hennd : (rb.transactions.enum.map Prod.fst).Nodup := by
          rw [List.enum_map_fst]; exact List.nodup_range _
        have hnone : o.expire = none :=
          ((txLoop_ok_props (r :: rrest) _ ops hloop hennd).2 o ho).2.2
        simp [opExpireData, hnone]
      rw [hops, List.append_nil, expireOps, List.filterMap_filterMap,
        expectedExpireEvents]
      congr 1
      funext p
      rcases p with ⟨k, log⟩
      cases htop : log.topics with
      | nil => rfl
      | cons t0 rest =>
        by_cases hc : t0 = ArkivEntityExpired ∧ 32 ≤ log.data.length
        · simp only [if_pos hc]
          rfl
        · simp only [if_neg hc]
          rfl

def cexExpireLog : LogEntry :=
  { address := ArkivProcessorAddress,
    topics := [ArkivEntityExpired, sampleKey, addressToHash sampleOwner],
    data := sampleKey, blockNumber := 2 }

def cexBlockNoTx : Block := { number := 2, transactions := [] }

/-- A receipt whose log stream holds one non-expiration log followed by one
expiration log. -/
def cexMixedReceipt : Receipt :=
  { status := 1, logs := [cexCreatedLog, cexExpireLog] }

/-- Counterexample to claim C3 as stated: with one non-matching log in front
of the single expiration log, the derived block holds exactly one Expire
Operation, but its OpIndex is 1 (the log's position), not the sequentially
assigned 0 the claim requires for the first Expire operation. -/
theorem expire_opindex_counterexample :
    ((blockToEvents cexBlockNoTx [cexMixedReceipt]).toOption.map
        (fun evb => evb.operations.map fun o => (o.txIndex, o.opIndex)))
      = some [(0, 1)] ∧ (1 : Nat) ≠ 0 :=
  ⟨by decide, by decide⟩

/-- Witness for the amended C3 at the concrete mixed-log block. -/
theorem blockToEvents_expire_events_witness :
    (∃ evb, blockToEvents cexBlockNoTx [cexMixedReceipt] = .ok evb ∧
      evb.operations.filterMap opExpireData
        = expectedExpireEvents cexMixedReceipt.logs) ∧
    expectedExpireEvents cexMixedReceipt.logs = [(0, 1, sampleKey)] :=
  ⟨⟨_, rfl, blockToEvents_expire_events cexBlockNoTx [cexMixedReceipt] _ rfl⟩,
    by decide⟩

/-! ## The chain batch iterator (`arkiv/dbevents`, `NewChainBatchIterator`)

One wake-up of the iterator's loop body is modelled as a pure step: given the
checkpoint `lastBlock` and the observed head, it reads the gap sequentially
and returns the batch it would yield (if any) together with the new value of
`lastBlock`.  The condition-variable wait, head coalescing and the consumer's
cancellation are concurrency surface outside this model. -/

structure ChainDB where
  canonicalHash : Nat → List Nat
  blockAt : List Nat → Nat → Option Block
  receiptsAt : List Nat → Nat → Option (List Receipt)

/-- One height's read inside the loop: a zero canonical hash, a missing
block, missing receipts, or a derivation error all abort the batch (the
source reads the block twice and would dereference nil before its own
missing-block check; both reads collapse to one lookup here and a missing
block is a failed read). -/
def readOne (db : ChainDB) (blockNumber : Nat) : Option EventsBlock :=
  let hash := db.canonicalHash blockNumber
  if hash = zeroWord then none
  else
    (db.blockAt hash blockNumber).bind fun bl =>
      (db.receiptsAt hash blockNumber).bind fun receipts =>
        (blockToEvents bl receipts).toOption

/-- The batch-reading loop: read `batchSize` consecutive heights starting at
`next`, stopping (and keeping the prefix read so far) at the first failure. -/
def readFrom (db : ChainDB) (next : Nat) : Nat → List EventsBlock
  | 0 => []
  | n + 1 =>
    match readOne db next with
    | none => []
    | some b => b :: readFrom db (next + 1) n

/-- One wake-up of the iterator: no new blocks means no batch; otherwise read
the gap `[lastBlock+1, min(newHead, lastBlock+100)]`; an empty result yields
nothing and keeps `lastBlock`; a non-empty result is yielded and `lastBlock`
advances to the number of the batch's final block. -/
def batchStep (db : ChainDB) (lastBlock newHead : Nat) :
    Option (List EventsBlock) × Nat :=
  if newHead ≤ lastBlock then (none, lastBlock)
  else
    match readFrom db (lastBlock + 1) (min 100 (newHead - lastBlock)) with
    | [] => (none, lastBlock)
    | b :: rest => (some (b :: rest), (rest.getLastD b).number)

/-- The database invariant of `rawdb`: a block stored under height `n` has
number `n`. -/
def dbWellFormed (db : ChainDB) : Prop :=
  ∀ hash n bl, db.blockAt hash n = some bl → bl.number = n

theorem toOption_eq_some {ε α : Type} (e : Except ε α) (a : α)
    (h : e.toOption = some a) : e = .ok a := by
  cases e with
  | error err => simp [Except.toOption] at h
  | ok v => simp [Except.toOption] at h; rw [h]

theorem blockToEvents_number (rb : Block) (rr : List Receipt)
    (evb : EventsBlock) (h : blockToEvents rb rr = .ok evb) :
    evb.number = rb.number := by
  cases rr with
  | nil =>
    rw [blockToEvents] at h
    injection h with h'
    rw [← h']
  | cons r rrest =>
    rw [blockToEvents] at h
    cases hloop : txLoop (r :: rrest) rb.transactions.enum with
    | error e => rw [hloop] at h; simp at h
    | ok ops => rw [hloop] at h; injection h with h'; rw [← h']

theorem readOne_number (db : ChainDB) (hwf : dbWellFormed db) (n : Nat)
    (b : EventsBlock) (hr : readOne db n = some b) : b.number = n := by
  rw [readOne] at hr
  by_cases hz : db.canonicalHash n = zeroWord
  · rw [if_pos hz] at hr; cases hr
  · rw [if_neg hz] at hr
    cases hbl : db.blockAt (db.canonicalHash n) n with
    | none => rw [hbl] at hr; simp at hr
    | some bl =>
      rw [hbl, Option.some_bind] at hr
      cases hrc : db.receiptsAt (db.canonicalHash n) n with
      | none => rw [hrc] at hr; simp at hr
      | some receipts =>
        rw [hrc, Option.some_bind] at hr
        rw [blockToEvents_number _ _ _ (toOption_eq_some _ _ hr)]
        exact hwf _ _ _ hbl

theorem readFrom_numbers (db : ChainDB) (hwf : dbWellFormed db) :
    ∀ (n start m : Nat), m ≤ n →
    (∀ j, start ≤ j → j < start + m → (readOne db j).isSome) →
    (m < n → readOne db (start + m) = none) →
    (readFrom db start n).map (fun b => b.number) = List.range' start m := by
  intro n
  induction n with
  | zero =>
    intro start m hm _ _
    have : m = 0 := by omega
    subst this
    rfl
  | succ n ih =>
    intro start m hm hsome hfail
    cases m with
    | zero =>
      have hf : readOne db start = none := by
        have := hfail (by omega)
        rwa [Nat.add_zero] at this
      rw [readFrom, hf]
      rfl
    | succ m' =>
      obtain ⟨b, hb⟩ := Option.isSome_iff_exists.mp
        (hsome start (Nat.le_refl _) (by omega))
      rw [readFrom, hb]
      show (b :: readFrom db (start + 1) n).map (fun x => x.number)
        = List.range' start (m' + 1)
      have ih' := ih (start + 1) m' (by omega)
        (fun j h1 h2 => hsome j (by omega) (by omega))
        (fun hlt => by
          have h2 := hfail (by omega)
          rwa [show start + (m' + 1) = start + 1 + m' from by omega] at h2)
      rw [List.range'_succ, List.map_cons, ih',
        readOne_number db hwf start b hb]

theorem map_number_range'_getLastD (rest : List EventsBlock) :
    ∀ (b : EventsBlock) (s n : Nat),
    (b :: rest).map (fun x => x.number) = List.range' s (n + 1) →
    (rest.getLastD b).number = s + n := by
  induction rest with
  | nil =>
    intro b s n h
    rw [List.range'_succ] at h
    injection h with h1 h2
    have : n = 0 := by
      have := congrArg List.length h2
      simp at this
      omega
    subst this
    simpa using h1
  | cons c rest ih =>
    intro b s n h
    rw [List.range'_succ] at h
    injection h with h1 h2
    cases n with
    | zero => simp at h2
    | succ n' =>
      rw [List.getLastD_cons, ih c (s + 1) n' h2]
      omega

/-- Claim C8: resuming from checkpoint `C` and observing a head `H` with
`H − C > 100`, the step yields a batch covering exactly the contiguous
heights `C+1 .. C+100` (at most 100 blocks) and advances the checkpoint to
`C+100`, provided every height in that range reads and derives successfully. -/
theorem batchStep_resume (db : ChainDB) (hwf : dbWellFormed db) (C H : Nat)
    (hgap : C + 100 < H)
    (hall : ∀ j, C + 1 ≤ j → j ≤ C + 100 → (readOne db j).isSome) :
    ∃ bs, batchStep db C H = (some bs, C + 100) ∧
      bs.map (fun b => b.number) = List.range' (C + 1) 100 := by
  have hmin : min 100 (H - C) = 100 := by omega
  have hmap : (readFrom db (C + 1) (min 100 (H - C))).map (fun b => b.number)
      = List.range' (C + 1) 100 := by
    rw [hmin]
    exact readFrom_numbers db hwf 100 (C + 1) 100 (Nat.le_refl _)
      (fun j h1 h2 => hall j h1 (by omega)) (fun h => absurd h (by omega))
  rw [batchStep, if_neg (by omega : ¬ H ≤ C)]
  cases hbatch : readFrom db (C + 1) (min 100 (H - C)) with
  | nil =>
    rw [hbatch] at hmap
    simp at hmap
  | cons b rest =>
    rw [hbatch] at hmap
    refine ⟨b :: rest, ?_, hmap⟩
    have hlast : (rest.getLastD b).number = (C + 1) + 99 :=
      map_number_range'_getLastD rest b (C + 1) 99 (by rw [hmap])
    show (some (b :: rest), (rest.getLastD b).number) = (some (b :: rest), C + 100)
    rw [hlast]

/-- A database holding a block with empty transactions and receipts at every
height. -/
def fullDb : ChainDB :=
  { canonicalHash := fun _ => List.replicate 32 1,
    blockAt := fun _ n => some { number := n, transactions := [] },
    receiptsAt := fun _ _ => some [] }

theorem fullDb_wf : dbWellFormed fullDb := by
  intro hash n bl h
  have h' : some ({ number := n, transactions := [] } : Block) = some bl := h
  injection h' with h''
  rw [← h'']

/-- Witness for C8: from checkpoint 0 with head 101 over the fully populated
database, the batch covers exactly heights 1..100. -/
theorem batchStep_resume_witness :
    (0 + 100 < 101 ∧ ∀ j, 0 + 1 ≤ j → j ≤ 0 + 100 → (readOne fullDb j).isSome) ∧
    (∃ bs, batchStep fullDb 0 101 = (some bs, 0 + 100) ∧
      bs.map (fun b => b.number) = List.range' (0 + 1) 100) :=
  ⟨⟨by norm_num, fun j _ _ => rfl⟩,
    batchStep_resume fullDb fullDb_wf 0 101 (by norm_num) (fun j _ _ => rfl)⟩

/-- The database of the C1 counterexample: height 1 is fully readable, height
2 has no canonical hash. -/
def gapDb : ChainDB :=
  { canonicalHash := fun n => if n = 1 then List.replicate 32 1 else zeroWord,
    blockAt := fun _ n =>
      if n = 1 then some { number := 1, transactions := [] } else none,
    receiptsAt := fun _ _ => some [] }

/-- Counterexample to claim C1 as stated: with checkpoint 0 and head 2, the
canonical hash of height 2 (inside the gap [1, 2]) is missing, yet the step
still yields a batch — the partial prefix covering height 1 — and advances
`lastBlock` to 1; the claim's "no batch is yielded and lastDelivered is not
advanced" fails. -/
theorem batch_partial_counterexample :
    gapDb.canonicalHash 2 = zeroWord ∧
    ((batchStep gapDb 0 2).1.map (fun bs => bs.map (fun b => b.number)))
      = some [1] ∧
    (batchStep gapDb 0 2).2 = 1 ∧ (1 : Nat) ≠ 0 :=
  ⟨by decide, by decide, by decide, by decide⟩

theorem gapDb_wf : dbWellFormed gapDb := by
  intro hash n bl h
  by_cases hn : n = 1
  · subst hn
    have h' : some ({ number := 1, transactions := [] } : Block) = some bl := h
    injection h' with h''
    rw [← h'']
  · have h' : (none : Option Block) = some bl := by
      have : gapDb.blockAt hash n = none := by simp [gapDb, hn]
      rwa [this] at h
    cases h'

/-- Claim C1 (amended): if the canonical data for some height `k` in the gap
`[C+1, min(H, C+100)]` cannot be located (or derived), the batch is cut short
at `k`: if `k` is the very first gap height, no batch is yielded and the
checkpoint keeps its value `C`; otherwise the yielded batch covers exactly
the heights `C+1 .. k−1` and the checkpoint advances exactly to `k−1` — never
to or past the missing height, so height `k` is retried on the next
notification. -/
theorem batchStep_missing (db : ChainDB) (hwf : dbWellFormed db)
    (C H k : Nat) (hCH : C < H) (hk1 : C < k) (hk2 : k ≤ min H (C + 100))
    (hfail : readOne db k = none)
    (hbefore : ∀ j, C < j → j < k → (readOne db j).isSome) :
    (k = C + 1 → batchStep db C H = (none, C)) ∧
    (C + 1 < k → ∃ bs, batchStep db C H = (some bs, k - 1) ∧
      bs.map (fun b => b.number) = List.range' (C + 1) (k - 1 - C)) := by
  have hmap : (readFrom db (C + 1) (min 100 (H - C))).map (fun b => b.number)
      = List.range' (C + 1) (k - 1 - C) := by
    refine readFrom_numbers db hwf (min 100 (H - C)) (C + 1) (k - 1 - C)
      (by omega) (fun j h1 h2 => hbefore j (by omega) (by omega)) (fun _ => ?_)
    have : C + 1 + (k - 1 - C) = k := by omega
    rwa [this]
  constructor
  · intro hk
    subst hk
    rw [batchStep, if_neg (by omega : ¬ H ≤ C)]
    have hzero : C + 1 - 1 - C = 0 := by omega
    rw [hzero] at hmap
    cases hbatch : readFrom db (C + 1) (min 100 (H - C)) with
    | nil => rfl
    | cons b rest =>
      rw [hbatch] at hmap
      simp [List.range'] at hmap
  · intro hklt
    rw [batchStep, if_neg (by omega : ¬ H ≤ C)]
    cases hbatch : readFrom db (C + 1) (min 100 (H - C)) with
    | nil =>
      rw [hbatch] at hmap
      have : k - 1 - C = 0 := by
        have := congrArg List.length hmap
        simp at this
        omega
      omega
    | cons b rest =>
      rw [hbatch] at hmap
      refine ⟨b :: rest, ?_, hmap⟩
      have hm : k - 1 - C = (k - C - 2) + 1 := by omega
      rw [hm] at hmap
      have hlast : (rest.getLastD b).number = (C + 1) + (k - C - 2) :=
        map_number_range'_getLastD rest b (C + 1) (k - C - 2) hmap
      show (some (b :: rest), (rest.getLastD b).number) = (some (b :: rest), k - 1)
      rw [hlast]
      have : C + 1 + (k - C - 2) = k - 1 := by omega
      rw [this]

/-- Witness for the amended C1: over `gapDb` (height 1 readable, height 2
missing), stepping from checkpoint 0 with head 2 yields the partial batch
covering exactly height 1 and advances the checkpoint to 1. -/
theorem batchStep_missing_witness :
    (0 < 2 ∧ 0 < 2 ∧ 2 ≤ min 2 (0 + 100) ∧ readOne gapDb 2 = none ∧ 0 + 1 < 2) ∧
    (∃ bs, batchStep gapDb 0 2 = (some bs, 2 - 1) ∧
      bs.map (fun b => b.number) = List.range' (0 + 1) (2 - 1 - 0)) :=
  ⟨⟨by norm_num, by norm_num, by norm_num, rfl, by norm_num⟩,
    (batchStep_missing gapDb gapDb_wf 0 2 2 (by norm_num) (by norm_num)
        (by norm_num) rfl
        (fun j h1 h2 => by
          have hj : j = 1 := by omega
          subst hj
          rfl)).2
      (by norm_num)⟩
